import Mathlib

/-!
Verification development for the `vendman` vendoring dependency manager
(sources: `src/main.rs`, `src/types.rs`).

The Rust program is embedded shallowly:
* the manifest (`types::Config`) is modelled with its dependency map as an
  association list with `HashMap`-style insert/lookup semantics;
* the filesystem state relevant to the program (the `.vendman` root, the
  `config.toml` manifest file and the workspace clone directories) is a
  `World` record;
* libgit2 (`git2::Repository`) is an abstract `Provider` oracle whose calls
  may fail, exactly as the code consumes it; calls made by `update` are
  additionally recorded in a trace so statements about which arguments are
  passed (e.g. fetch refspecs) can be made;
* `fn process` becomes `process : Provider → World → Command → Except String String × World`,
  returning the command's result together with the final filesystem state
  (the state is the input state when the command fails before writing).
-/

namespace Vendman

/-- `types::Dependency`: `Dep(String)` holds the recorded repo path of a
tracking dependency, `DepWithHash(String, String)` additionally holds the
pinned branch name. -/
inductive Dependency where
  | Dep : String → Dependency
  | DepWithHash : String → String → Dependency
deriving DecidableEq, Repr

/-- `types::Config`: schema version plus the name → dependency map.
`HashMap<String, Dependency>` is modelled as an association list. -/
structure Config where
  version : String
  dependencies : List (String × Dependency)
deriving DecidableEq, Repr

/-- `HashMap` lookup on the association-list model. -/
def lookupDep : List (String × Dependency) → String → Option Dependency
  | [], _ => none
  | (k, v) :: rest, key => if k = key then some v else lookupDep rest key

/-- Removal of every binding with the given key (the auxiliary step of
`HashMap::insert` on the association-list model). -/
def removeDep : List (String × Dependency) → String → List (String × Dependency)
  | [], _ => []
  | (k, v) :: rest, key =>
    if k = key then removeDep rest key else (k, v) :: removeDep rest key

/-- `HashMap::insert`: the new binding replaces any existing binding with the
same key (the map keeps at most one binding per key). -/
def insertDep (deps : List (String × Dependency)) (key : String) (dep : Dependency) :
    List (String × Dependency) :=
  (key, dep) :: removeDep deps key

/-- `Path::join` on string paths (`home.join(name)` in the code). -/
def pathJoin (a b : String) : String := a ++ "/" ++ b

/-- Rust's `str::split('/')` on the character list of the string: splits at
every `'/'`, keeping empty segments, so it always yields at least one
segment. -/
def splitSlash : List Char → List (List Char)
  | [] => [[]]
  | c :: cs =>
    match splitSlash cs with
    | [] => [[c]]
    | seg :: segs => if c = '/' then [] :: seg :: segs else (c :: seg) :: segs

/-- `repo.split('/').last().unwrap()`: the final path segment of a locator. -/
def lastSegment (s : String) : String :=
  String.mk ((splitSlash s.data).getLastD [])

/-- The components of a path in the sense of Rust's `Path::components`:
empty segments produced by duplicate or trailing separators do not count, so
two path strings denote the same directory iff their components agree. -/
def pathComponents (s : String) : List (List Char) :=
  (splitSlash s.data).filter (fun seg => seg ≠ [])

/-- The state of the manifest file `config.toml` on disk. -/
inductive ConfigFile where
  /-- the file exists but `std::fs::read_to_string` fails -/
  | unreadable
  /-- the file exists and is readable but `toml::from_str` fails -/
  | unparseable
  /-- the file exists and parses to this `Config` -/
  | parsed (c : Config)
deriving DecidableEq, Repr

/-- The filesystem state the program touches: whether the `.vendman` root
directory exists, the state of `config.toml` inside it (`none` = file does
not exist), and the names of the workspace clone directories. -/
structure World where
  homeExists : Bool
  configFile : Option ConfigFile
  dirs : List String
deriving DecidableEq, Repr

/-- A libgit2 call made during `update`/`list`, with the arguments the code
passes (recorded so that theorems can talk about e.g. fetch refspecs). -/
inductive PCall where
  | openRepo (path : String)
  | findRemote (path remote : String)
  | fetch (path : String) (refspecs : List String)
  | checkoutHead (path : String)
deriving DecidableEq, Repr

/-- The abstract source-control provider (libgit2): every operation the code
performs on repositories, each of which may fail.  `clone` returns
`repo.path()` on success; `headRef` returns `head.shorthand()` (`none` when
the head has no shorthand); `peelCommit` returns the head commit id. -/
structure Provider where
  openRepo : String → Except String Unit
  findRemote : String → String → Except String Unit
  fetch : String → List String → Except String Unit
  checkoutHead : String → Except String Unit
  clone : String → String → Except String String
  headRef : String → Except String (Option String)
  peelCommit : String → Except String String

/-- The CLI subcommands (`enum Command` in `main.rs`). -/
inductive Command where
  | init
  | vend (repo : String) (branch : Option String)
  | clean
  | update
  | list
deriving DecidableEq, Repr

/-- The `enforce_config` closure: fails when `config.toml` does not exist,
cannot be read, or cannot be parsed; otherwise returns the parsed config. -/
def enforceConfig (w : World) : Except String Config :=
  match w.configFile with
  | none => .error "No .vendman directory found. Run `vendman init` to initialize it."
  | some .unreadable => .error "Can't read config file"
  | some .unparseable => .error "Can't parse config file"
  | some (.parsed c) => .ok c

/-- The empty manifest written by `init`. -/
def emptyConfig : Config := { version := "0.1.0", dependencies := [] }

/-- The `let dep = match branch { ... }` of the `Command::Vend` arm: the
manifest entry built after a successful clone, from the optional branch
argument and `repo.path()`. -/
def vendDep (branch : Option String) (repoPath : String) : Dependency :=
  match branch with
  | some b => Dependency.DepWithHash repoPath b
  | none => Dependency.Dep repoPath

/-- Processing of one dependency inside the `update` loop, returning the
string pushed onto `updated` (or the error produced by the failing step)
together with the trace of provider calls made.  Mirrors the two match arms
of the `Command::Update` loop, including the re-`open` before
`checkout_head` for `DepWithHash`. -/
def updateOne (p : Provider) (home name : String) : Dependency → Except String String × List PCall
  | .Dep _ =>
    let path := pathJoin home name
    match p.openRepo path with
    | .error _ => (.error s!"[{name}] Can't open repository", [.openRepo path])
    | .ok _ =>
      match p.findRemote path "origin" with
      | .error _ => (.error s!"[{name}] Can't find remote",
          [.openRepo path, .findRemote path "origin"])
      | .ok _ =>
        match p.fetch path ["origin"] with
        | .error _ => (.error s!"[{name}] Can't fetch repo",
            [.openRepo path, .findRemote path "origin", .fetch path ["origin"]])
        | .ok _ => (.ok name,
            [.openRepo path, .findRemote path "origin", .fetch path ["origin"]])
  | .DepWithHash _ branch =>
    let path := pathJoin home name
    match p.openRepo path with
    | .error _ => (.error s!"[{name}] Can't open repository", [.openRepo path])
    | .ok _ =>
      match p.findRemote path "origin" with
      | .error _ => (.error s!"[{name}] Can't find remote",
          [.openRepo path, .findRemote path "origin"])
      | .ok _ =>
        match p.fetch path ["origin"] with
        | .error _ => (.error s!"[{name}] Can't fetch repo",
            [.openRepo path, .findRemote path "origin", .fetch path ["origin"]])
        | .ok _ =>
          match p.openRepo path with
          | .error _ => (.error s!"[{name}] Can't open repository",
              [.openRepo path, .findRemote path "origin", .fetch path ["origin"],
               .openRepo path])
          | .ok _ =>
            match p.checkoutHead path with
            | .error _ => (.error s!"[{name}] Can't checkout branch",
                [.openRepo path, .findRemote path "origin", .fetch path ["origin"],
                 .openRepo path, .checkoutHead path])
            | .ok _ => (.ok (name ++ "/*" ++ branch ++ "*"),
                [.openRepo path, .findRemote path "origin", .fetch path ["origin"],
                 .openRepo path, .checkoutHead path])

/-- The `update` loop over the dependency map: the `?` operator returns the
first error to the caller, aborting the loop; on success `updated` holds one
entry per dependency in iteration order. -/
def updateDeps (p : Provider) (home : String) :
    List (String × Dependency) → Except String (List String)
  | [] => .ok []
  | (name, dep) :: rest =>
    match (updateOne p home name dep).1 with
    | .error e => .error e
    | .ok u =>
      match updateDeps p home rest with
      | .error e => .error e
      | .ok us => .ok (u :: us)

/-- Processing of one dependency inside the `list` loop: open the repository,
resolve its head, peel the head to a commit; the row holds the name, the
head shorthand (or `"HEAD"`), and the commit hash. -/
def listOne (p : Provider) (home name : String) : Except String (String × String × String) :=
  let path := pathJoin home name
  match p.openRepo path with
  | .error _ => .error "Can't open repository"
  | .ok _ =>
    match p.headRef path with
    | .error _ => .error "Can't get head"
    | .ok sh =>
      match p.peelCommit path with
      | .error _ => .error "Can't peel to commit"
      | .ok hash => .ok (name, sh.getD "HEAD", hash)

/-- The `list` loop over the dependency map: the `?` operator aborts the loop
at the first failing dependency; on success `table` holds one row per
dependency in iteration order. -/
def listDeps (p : Provider) (home : String) :
    List (String × Dependency) → Except String (List (String × String × String))
  | [] => .ok []
  | (name, _) :: rest =>
    match listOne p home name with
    | .error e => .error e
    | .ok row =>
      match listDeps p home rest with
      | .error e => .error e
      | .ok rows => .ok (row :: rows)

/-- The sorted table printed by `list` (`table.sort_by(|a, b| a.0.cmp(&b.0))`). -/
def listTable (p : Provider) (home : String) (deps : List (String × Dependency)) :
    Except String (List (String × String × String)) :=
  match listDeps p home deps with
  | .error e => .error e
  | .ok rows => .ok (rows.mergeSort (fun a b => a.1 ≤ b.1))

/-- `fn process`, one step per CLI command, returning the command's
`Result<String, String>` together with the filesystem state afterwards
(unchanged when the command fails before any write). -/
def process (p : Provider) (home : String) (w : World) : Command → Except String String × World
  | .init =>
    if w.homeExists then
      (.ok "**.vendman directory initialized**", w)
    else
      (.ok "**.vendman directory initialized**",
       { homeExists := true, configFile := some (.parsed emptyConfig), dirs := w.dirs })
  | .vend repo branch =>
    match enforceConfig w with
    | .error e => (.error e, w)
    | .ok cfg =>
      let name := lastSegment repo
      match p.clone repo (pathJoin home name) with
      | .error e => (.error ("Can't clone repository: " ++ e), w)
      | .ok repoPath =>
        let dep := vendDep branch repoPath
        let cfg' := { cfg with dependencies := insertDep cfg.dependencies name dep }
        (.ok ("**Cloned**: *" ++ name ++ "*"),
         { homeExists := w.homeExists
           configFile := some (.parsed cfg')
           dirs := if name ∈ w.dirs then w.dirs else w.dirs ++ [name] })
  | .clean =>
    match enforceConfig w with
    | .error e => (.error e, w)
    | .ok _ =>
      (.ok "**.vendman directory removed**",
       { homeExists := false, configFile := none, dirs := [] })
  | .update =>
    match enforceConfig w with
    | .error e => (.error e, w)
    | .ok cfg =>
      match updateDeps p home cfg.dependencies with
      | .error e => (.error e, w)
      | .ok _ => (.ok "**Dependencies updated**", w)
  | .list =>
    match enforceConfig w with
    | .error e => (.error e, w)
    | .ok cfg =>
      match listTable p home cfg.dependencies with
      | .error e => (.error e, w)
      | .ok _ => (.ok "", w)

/-! Concrete fixtures used by witnesses and counterexamples. -/

/-- A provider whose every call succeeds. -/
def pAllOk : Provider where
  openRepo _ := .ok ()
  findRemote _ _ := .ok ()
  fetch _ _ := .ok ()
  checkoutHead _ := .ok ()
  clone _ dst := .ok (dst ++ "/.git/")
  headRef _ := .ok (some "main")
  peelCommit _ := .ok "0123abcd"

/-- A provider that fails to open the workspace repository of dependency
`a` under the root `/h/.vendman` and succeeds everywhere else. -/
def pFailA : Provider :=
  { pAllOk with
    openRepo := fun path => if path = "/h/.vendman/a" then .error "boom" else .ok () }

/-- A provider whose `clone` always fails. -/
def pCloneFails : Provider :=
  { pAllOk with clone := fun _ _ => .error "boom" }

/-- A two-dependency manifest map. -/
def twoDeps : List (String × Dependency) :=
  [("a", Dependency.Dep "pa"), ("b", Dependency.Dep "pb")]

/-- An initialized world whose manifest declares `twoDeps`. -/
def wTwo : World :=
  { homeExists := true
    configFile := some (.parsed { version := "0.1.0", dependencies := twoDeps })
    dirs := ["a", "b"] }

/-- An initialized world with an empty manifest. -/
def wEmpty : World :=
  { homeExists := true, configFile := some (.parsed emptyConfig), dirs := [] }

/-- A world in which nothing has been created yet. -/
def wNone : World := { homeExists := false, configFile := none, dirs := [] }

/-! Helper lemmas about the association-list map operations. -/

theorem lookupDep_removeDep_ne (deps : List (String × Dependency)) (key k : String)
    (h : k ≠ key) : lookupDep (removeDep deps key) k = lookupDep deps k := by
  induction deps with
  | nil => rfl
  | cons q rest ih =>
    obtain ⟨qk, qv⟩ := q
    by_cases hq : qk = key
    · subst hq
      have hqk : ¬(qk = k) := fun e => h e.symm
      simp [removeDep, lookupDep, hqk, ih]
    · simp only [removeDep, lookupDep, if_neg hq]
      by_cases hk : qk = k <;> simp [lookupDep, hk, ih]

theorem key_not_mem_removeDep (deps : List (String × Dependency)) (key : String) :
    key ∉ (removeDep deps key).map Prod.fst := by
  induction deps with
  | nil => simp [removeDep]
  | cons q rest ih =>
    obtain ⟨qk, qv⟩ := q
    by_cases hq : qk = key
    · simp only [removeDep, if_pos hq]
      exact ih
    · have hk : ¬ key = qk := fun e => hq e.symm
      simp [removeDep, hq, ih, hk]

theorem removeDep_keys_subset (deps : List (String × Dependency)) (key k : String)
    (h : k ∈ (removeDep deps key).map Prod.fst) : k ∈ deps.map Prod.fst := by
  induction deps with
  | nil => simp [removeDep] at h
  | cons q rest ih =>
    obtain ⟨qk, qv⟩ := q
    by_cases hq : qk = key
    · simp only [removeDep, if_pos hq] at h
      simp [ih h]
    · simp only [removeDep, if_neg hq, List.map_cons, List.mem_cons] at h
      rcases h with h | h
      · simp [h]
      · simp [ih h]

theorem removeDep_keys_nodup (deps : List (String × Dependency)) (key : String)
    (h : (deps.map Prod.fst).Nodup) : ((removeDep deps key).map Prod.fst).Nodup := by
  induction deps with
  | nil => simp [removeDep]
  | cons q rest ih =>
    obtain ⟨qk, qv⟩ := q
    simp only [List.map_cons, List.nodup_cons] at h
    by_cases hq : qk = key
    · simp only [removeDep, if_pos hq]
      exact ih h.2
    · simp only [removeDep, if_neg hq, List.map_cons, List.nodup_cons]
      exact ⟨fun hm => h.1 (removeDep_keys_subset rest key qk hm), ih h.2⟩

theorem insertDep_keys_nodup (deps : List (String × Dependency)) (key : String)
    (dep : Dependency) (h : (deps.map Prod.fst).Nodup) :
    ((insertDep deps key dep).map Prod.fst).Nodup := by
  simp only [insertDep, List.map_cons, List.nodup_cons]
  exact ⟨key_not_mem_removeDep deps key, removeDep_keys_nodup deps key h⟩

theorem lookupDep_insertDep_self (deps : List (String × Dependency)) (key : String)
    (dep : Dependency) : lookupDep (insertDep deps key dep) key = some dep := by
  simp [insertDep, lookupDep]

theorem lookupDep_insertDep_ne (deps : List (String × Dependency)) (key k : String)
    (dep : Dependency) (h : k ≠ key) :
    lookupDep (insertDep deps key dep) k = lookupDep deps k := by
  have hk : key ≠ k := fun e => h e.symm
  simp [insertDep, lookupDep, hk, lookupDep_removeDep_ne deps key k h]

/-! Helper lemmas about `splitSlash`. -/

theorem splitSlash_ne_nil (l : List Char) : splitSlash l ≠ [] := by
  cases l with
  | nil => simp [splitSlash]
  | cons c cs =>
    cases h : splitSlash cs with
    | nil => simp [splitSlash, h]
    | cons seg segs =>
      simp only [splitSlash, h]
      split <;> simp

theorem splitSlash_append_slash (l : List Char) :
    splitSlash (l ++ ['/']) = splitSlash l ++ [[]] := by
  induction l with
  | nil => rfl
  | cons c cs ih =>
    cases h : splitSlash cs with
    | nil => exact absurd h (splitSlash_ne_nil cs)
    | cons seg segs =>
      rw [List.cons_append]
      by_cases hc : c = '/' <;> simp [splitSlash, ih, h, hc]

/-! Helper lemmas about string append. -/

theorem string_data_append (s t : String) : (s ++ t).data = s.data ++ t.data := by
  cases s
  cases t
  rfl

theorem string_append_empty_right (s : String) : s ++ "" = s := by
  cases s with
  | mk l =>
    show String.mk (l ++ []) = String.mk l
    rw [List.append_nil]

/-! Claim theorems. -/

/-- C2: if the clone step of `vend` fails, the whole operation aborts with a
clone error and the filesystem state — in particular the persisted
manifest — is left exactly as it was: the insert-and-save step is never
executed after a failed clone. -/
theorem vend_clone_failure_leaves_manifest (p : Provider) (home : String) (w : World)
    (cfg : Config) (repo : String) (branch : Option String) (e : String)
    (hcfg : enforceConfig w = .ok cfg)
    (hclone : p.clone repo (pathJoin home (lastSegment repo)) = .error e) :
    process p home w (.vend repo branch) = (.error ("Can't clone repository: " ++ e), w) := by
  simp [process, hcfg, hclone]

theorem vend_clone_failure_leaves_manifest_witness :
    process pCloneFails "/h/.vendman" wEmpty (.vend "user/repo" none)
      = (.error "Can't clone repository: boom", wEmpty) :=
  vend_clone_failure_leaves_manifest pCloneFails "/h/.vendman" wEmpty emptyConfig
    "user/repo" none "boom" rfl rfl

/-- C5: a successful `vend` records a `Dep` (tracking) entry when no branch
argument is supplied and a `DepWithHash` (pinned) entry holding exactly the
supplied branch name otherwise, under the derived dependency name. -/
theorem vend_variant_matches_branch (p : Provider) (home : String) (w : World)
    (cfg : Config) (repo : String) (branch : Option String) (repoPath : String)
    (hcfg : enforceConfig w = .ok cfg)
    (hclone : p.clone repo (pathJoin home (lastSegment repo)) = .ok repoPath) :
    ∃ cfg', (process p home w (.vend repo branch)).2.configFile = some (.parsed cfg') ∧
      (branch = none →
        lookupDep cfg'.dependencies (lastSegment repo) = some (Dependency.Dep repoPath)) ∧
      (∀ b, branch = some b →
        lookupDep cfg'.dependencies (lastSegment repo)
          = some (Dependency.DepWithHash repoPath b)) := by
  refine ⟨{ cfg with
    dependencies := insertDep cfg.dependencies (lastSegment repo) (vendDep branch repoPath) },
    ?_, ?_, ?_⟩
  · simp [process, hcfg, hclone]
  · intro hb
    subst hb
    simp [lookupDep_insertDep_self, vendDep]
  · intro b hb
    subst hb
    simp [lookupDep_insertDep_self, vendDep]

theorem vend_variant_matches_branch_witness :
    (∃ cfg', (process pAllOk "/h/.vendman" wEmpty (.vend "user/repo" none)).2.configFile
        = some (.parsed cfg') ∧
      (none = (none : Option String) →
        lookupDep cfg'.dependencies (lastSegment "user/repo")
          = some (Dependency.Dep "/h/.vendman/repo/.git/")) ∧
      (∀ b, (none : Option String) = some b →
        lookupDep cfg'.dependencies (lastSegment "user/repo")
          = some (Dependency.DepWithHash "/h/.vendman/repo/.git/" b))) :=
  vend_variant_matches_branch pAllOk "/h/.vendman" wEmpty emptyConfig
    "user/repo" none "/h/.vendman/repo/.git/" rfl rfl

/-- C7: `update` never writes anything: the filesystem state after
`Command::Update`, and in particular the persisted manifest, is exactly the
input state, whatever the provider does. -/
theorem update_preserves_world (p : Provider) (home : String) (w : World) :
    (process p home w .update).2 = w := by
  cases h : enforceConfig w with
  | error e => simp [process, h]
  | ok cfg =>
    cases h2 : updateDeps p home cfg.dependencies with
    | error e => simp [process, h, h2]
    | ok us => simp [process, h, h2]

/-- C8: `clean` on a non-initialized workspace (no manifest file) fails with
exactly the not-initialized error and changes nothing; on an initialized
workspace (manifest present and parseable) it removes the managed root:
afterwards the root does not exist, there is no manifest file and there are
no workspace subdirectories. -/
theorem clean_requires_and_removes (p : Provider) (home : String) (w : World) :
    (w.configFile = none →
      process p home w .clean
        = (.error "No .vendman directory found. Run `vendman init` to initialize it.", w)) ∧
    (∀ c, w.configFile = some (.parsed c) →
      process p home w .clean
        = (.ok "**.vendman directory removed**",
           { homeExists := false, configFile := none, dirs := [] })) := by
  constructor
  · intro h
    simp [process, enforceConfig, h]
  · intro c h
    simp [process, enforceConfig, h]

theorem clean_requires_and_removes_witness :
    process pAllOk "/h/.vendman" wNone .clean
        = (.error "No .vendman directory found. Run `vendman init` to initialize it.", wNone) ∧
    process pAllOk "/h/.vendman" wTwo .clean
        = (.ok "**.vendman directory removed**",
           { homeExists := false, configFile := none, dirs := [] }) :=
  ⟨(clean_requires_and_removes pAllOk "/h/.vendman" wNone).1 rfl,
   (clean_requires_and_removes pAllOk "/h/.vendman" wTwo).2
     { version := "0.1.0", dependencies := twoDeps } rfl⟩

/-- C9: `init` is idempotent: when the managed root already exists it is a
successful no-op leaving the whole state unchanged, and when it does not
exist it creates the root together with an empty manifest. -/
theorem init_idempotent (p : Provider) (home : String) (w : World) :
    (w.homeExists = true →
      process p home w .init = (.ok "**.vendman directory initialized**", w)) ∧
    (w.homeExists = false →
      process p home w .init
        = (.ok "**.vendman directory initialized**",
           { homeExists := true, configFile := some (.parsed emptyConfig), dirs := w.dirs })) := by
  constructor <;> intro h <;> simp [process, h]

theorem init_idempotent_witness :
    process pAllOk "/h/.vendman" wTwo .init
        = (.ok "**.vendman directory initialized**", wTwo) ∧
    process pAllOk "/h/.vendman" wNone .init
        = (.ok "**.vendman directory initialized**",
           { homeExists := true, configFile := some (.parsed emptyConfig), dirs := wNone.dirs }) :=
  ⟨(init_idempotent pAllOk "/h/.vendman" wTwo).1 rfl,
   (init_idempotent pAllOk "/h/.vendman" wNone).2 rfl⟩

/-- C4: a successful `vend` whose derived name equals an existing entry's
name overwrites that entry in the persisted manifest — the new entry is
found under the name, every other name is unaffected — and uniqueness of
dependency names is preserved, so no duplicate keys ever appear. -/
theorem vend_overwrites_and_keys_unique (p : Provider) (home : String) (w : World)
    (cfg : Config) (repo : String) (branch : Option String) (repoPath : String)
    (old : Dependency)
    (hcfg : enforceConfig w = .ok cfg)
    (hclone : p.clone repo (pathJoin home (lastSegment repo)) = .ok repoPath)
    (hex : lookupDep cfg.dependencies (lastSegment repo) = some old) :
    ∃ cfg', (process p home w (.vend repo branch)).2.configFile = some (.parsed cfg') ∧
      lookupDep cfg'.dependencies (lastSegment repo) = some (vendDep branch repoPath) ∧
      (∀ k, k ≠ lastSegment repo →
        lookupDep cfg'.dependencies k = lookupDep cfg.dependencies k) ∧
      ((cfg.dependencies.map Prod.fst).Nodup → (cfg'.dependencies.map Prod.fst).Nodup) := by
  refine ⟨{ cfg with
      dependencies :=
        insertDep cfg.dependencies (lastSegment repo) (vendDep branch repoPath) },
    ?_, ?_, ?_, ?_⟩
  · simp [process, hcfg, hclone]
  · exact lookupDep_insertDep_self cfg.dependencies (lastSegment repo) (vendDep branch repoPath)
  · intro k hk
    exact lookupDep_insertDep_ne cfg.dependencies (lastSegment repo) k
      (vendDep branch repoPath) hk
  · exact insertDep_keys_nodup cfg.dependencies (lastSegment repo) (vendDep branch repoPath)

theorem vend_overwrites_and_keys_unique_witness :
    ∃ cfg', (process pAllOk "/h/.vendman" wTwo (.vend "user/a" none)).2.configFile
        = some (.parsed cfg') ∧
      lookupDep cfg'.dependencies (lastSegment "user/a")
        = some (vendDep none "/h/.vendman/a/.git/") ∧
      (∀ k, k ≠ lastSegment "user/a" →
        lookupDep cfg'.dependencies k = lookupDep twoDeps k) ∧
      ((twoDeps.map Prod.fst).Nodup → (cfg'.dependencies.map Prod.fst).Nodup) :=
  vend_overwrites_and_keys_unique pAllOk "/h/.vendman" wTwo
    { version := "0.1.0", dependencies := twoDeps } "user/a" none "/h/.vendman/a/.git/"
    (Dependency.Dep "pa") rfl rfl rfl

/-- C10: deriving the dependency name from a locator is total — splitting on
`'/'` always yields at least one segment, so taking the last segment never
fails — and for a locator ending in `'/'` the derived name is the empty
string, which makes the clone target a path with the same components as the
managed root directory itself. -/
theorem lastSegment_total_and_trailing_slash :
    (∀ s : String, splitSlash s.data ≠ []) ∧
    (∀ (loc : String) (l : List Char), loc.data = l ++ ['/'] →
      lastSegment loc = "" ∧
      ∀ home : String,
        pathComponents (pathJoin home (lastSegment loc)) = pathComponents home) := by
  constructor
  · intro s
    exact splitSlash_ne_nil s.data
  · intro loc l h
    have hseg : lastSegment loc = "" := by
      simp only [lastSegment, h, splitSlash_append_slash, List.getLastD_concat]
    refine ⟨hseg, fun home => ?_⟩
    rw [hseg]
    have h1 : pathJoin home "" = home ++ "/" := by
      simp only [pathJoin]
      exact string_append_empty_right (home ++ "/")
    rw [h1]
    simp only [pathComponents]
    have h2 : (home ++ "/").data = home.data ++ ['/'] := by
      rw [string_data_append]
    rw [h2, splitSlash_append_slash, List.filter_append]
    simp

/-- C1 (amended): a provider failure while processing a dependency during
`update` aborts the whole update with that dependency's error: when every
dependency before the failing one succeeds, `update`'s loop returns the
failing dependency's error and reports no outcome for any other
dependency. -/
theorem update_aborts_on_first_failure (p : Provider) (home : String)
    (pre post : List (String × Dependency)) (name : String) (dep : Dependency) (e : String)
    (hpre : ∀ q ∈ pre, ∃ u, (updateOne p home q.1 q.2).1 = .ok u)
    (hfail : (updateOne p home name dep).1 = .error e) :
    updateDeps p home (pre ++ (name, dep) :: post) = .error e := by
  induction pre with
  | nil => simp [updateDeps, hfail]
  | cons q rest ih =>
    obtain ⟨qn, qd⟩ := q
    obtain ⟨u, hu⟩ := hpre (qn, qd) (List.mem_cons_self _ _)
    have hrest := ih (fun r hr => hpre r (List.mem_cons_of_mem _ hr))
    simp [updateDeps, hu, hrest]

theorem update_aborts_on_first_failure_witness :
    updateDeps pFailA "/h/.vendman" [("b", Dependency.Dep "pb"), ("a", Dependency.Dep "pa")]
      = .error "[a] Can't open repository" := by
  have hpre : ∀ q ∈ [(("b" : String), Dependency.Dep "pb")],
      ∃ u, (updateOne pFailA "/h/.vendman" q.1 q.2).1 = .ok u := by
    intro q hq
    simp only [List.mem_singleton] at hq
    subst hq
    exact ⟨"b", rfl⟩
  exact update_aborts_on_first_failure pFailA "/h/.vendman"
    [("b", Dependency.Dep "pb")] [] "a" (Dependency.Dep "pa")
    "[a] Can't open repository" hpre rfl

/-- C1 counterexample: over the two-dependency manifest `twoDeps`, making
dependency `a`'s open call fail does not leave an `Updated` outcome for the
other dependency `b`: the whole update returns `a`'s error and no outcome
list at all. -/
theorem update_isolation_counterexample :
    updateDeps pFailA "/h/.vendman" twoDeps = .error "[a] Can't open repository" ∧
    ¬ ∃ us, updateDeps pFailA "/h/.vendman" twoDeps = .ok us ∧ "b" ∈ us := by
  have h : updateDeps pFailA "/h/.vendman" twoDeps = .error "[a] Can't open repository" := rfl
  refine ⟨h, ?_⟩
  rintro ⟨us, h2, _⟩
  rw [h] at h2
  exact absurd h2 (by simp)

/-- C3 (amended): for a `Pinned` (`DepWithHash`) dependency whose provider
calls all succeed, `update` performs exactly: open the workspace repository,
find the `origin` remote, fetch with the refspec list `["origin"]` (not a
list restricted to the pinned ref), re-open the repository, and check out
its head; the recorded outcome carries both the name and the ref. -/
theorem update_pinned_steps (p : Provider) (home name src branch : String)
    (h1 : p.openRepo (pathJoin home name) = .ok ())
    (h2 : p.findRemote (pathJoin home name) "origin" = .ok ())
    (h3 : p.fetch (pathJoin home name) ["origin"] = .ok ())
    (h4 : p.checkoutHead (pathJoin home name) = .ok ()) :
    updateOne p home name (.DepWithHash src branch)
      = (.ok (name ++ "/*" ++ branch ++ "*"),
         [PCall.openRepo (pathJoin home name),
          PCall.findRemote (pathJoin home name) "origin",
          PCall.fetch (pathJoin home name) ["origin"],
          PCall.openRepo (pathJoin home name),
          PCall.checkoutHead (pathJoin home name)]) := by
  simp [updateOne, h1, h2, h3, h4]

theorem update_pinned_steps_witness :
    updateOne pAllOk "/h/.vendman" "a" (.DepWithHash "src" "dev")
      = (.ok ("a" ++ "/*" ++ "dev" ++ "*"),
         [PCall.openRepo (pathJoin "/h/.vendman" "a"),
          PCall.findRemote (pathJoin "/h/.vendman" "a") "origin",
          PCall.fetch (pathJoin "/h/.vendman" "a") ["origin"],
          PCall.openRepo (pathJoin "/h/.vendman" "a"),
          PCall.checkoutHead (pathJoin "/h/.vendman" "a")]) :=
  update_pinned_steps pAllOk "/h/.vendman" "a" "src" "dev" rfl rfl rfl rfl

/-- C3 counterexample: updating the pinned dependency `a` with ref `dev`
issues a fetch whose refspec list is `["origin"]`; no fetch restricted to
the ref `dev` is ever made. -/
theorem update_pinned_refspec_counterexample :
    PCall.fetch (pathJoin "/h/.vendman" "a") ["origin"]
        ∈ (updateOne pAllOk "/h/.vendman" "a" (.DepWithHash "src" "dev")).2 ∧
    PCall.fetch (pathJoin "/h/.vendman" "a") ["dev"]
        ∉ (updateOne pAllOk "/h/.vendman" "a" (.DepWithHash "src" "dev")).2 := by
  decide

/-- C6 (amended): a provider failure while listing a dependency aborts the
whole listing with that dependency's error: when every dependency before the
failing one succeeds, `list`'s loop returns the error and produces no rows
for any dependency. -/
theorem list_aborts_on_first_failure (p : Provider) (home : String)
    (pre post : List (String × Dependency)) (name : String) (dep : Dependency) (e : String)
    (hpre : ∀ q ∈ pre, ∃ row, listOne p home q.1 = .ok row)
    (hfail : listOne p home name = .error e) :
    listDeps p home (pre ++ (name, dep) :: post) = .error e := by
  induction pre with
  | nil => simp [listDeps, hfail]
  | cons q rest ih =>
    obtain ⟨qn, qd⟩ := q
    obtain ⟨row, hrow⟩ := hpre (qn, qd) (List.mem_cons_self _ _)
    have hrest := ih (fun r hr => hpre r (List.mem_cons_of_mem _ hr))
    simp [listDeps, hrow, hrest]

theorem list_aborts_on_first_failure_witness :
    listDeps pFailA "/h/.vendman" [("b", Dependency.Dep "pb"), ("a", Dependency.Dep "pa")]
      = .error "Can't open repository" := by
  have hpre : ∀ q ∈ [(("b" : String), Dependency.Dep "pb")],
      ∃ row, listOne pFailA "/h/.vendman" q.1 = .ok row := by
    intro q hq
    simp only [List.mem_singleton] at hq
    subst hq
    exact ⟨("b", "main", "0123abcd"), rfl⟩
  exact list_aborts_on_first_failure pFailA "/h/.vendman"
    [("b", Dependency.Dep "pb")] [] "a" (Dependency.Dep "pa")
    "Can't open repository" hpre rfl

/-- C6 counterexample: over the two-dependency manifest `twoDeps`, making
dependency `a`'s open call fail yields no per-row error and no row for the
other dependency `b`: the whole listing returns the error and no table. -/
theorem list_isolation_counterexample :
    listTable pFailA "/h/.vendman" twoDeps = .error "Can't open repository" ∧
    ¬ ∃ rows, listTable pFailA "/h/.vendman" twoDeps = .ok rows ∧
        ∃ r ∈ rows, r.1 = "b" := by
  have h : listTable pFailA "/h/.vendman" twoDeps = .error "Can't open repository" := rfl
  refine ⟨h, ?_⟩
  rintro ⟨rows, h2, _⟩
  rw [h] at h2
  exact absurd h2 (by simp)

theorem lastSegment_total_and_trailing_slash_witness :
    splitSlash ("user/repo" : String).data ≠ [] ∧
    lastSegment "user/repo/" = "" ∧
    pathComponents (pathJoin "/h/.vendman" (lastSegment "user/repo/"))
      = pathComponents "/h/.vendman" :=
  ⟨lastSegment_total_and_trailing_slash.1 "user/repo",
   (lastSegment_total_and_trailing_slash.2 "user/repo/" ("user/repo").data (by decide)).1,
   (lastSegment_total_and_trailing_slash.2 "user/repo/" ("user/repo").data
      (by decide)).2 "/h/.vendman"⟩

end Vendman
